import Mathlib

/-!
Verification of the text-processing core of the journal_first_aid_kit
pipeline (stages `1_extract_paper_data.py`, `2_analyze_with_claude.py`,
`3_create_markdown.py`).  Texts are modelled as `List Char`; every regex
the scripts use is a fixed literal-label pattern whose backtracking
behaviour is deterministic, and is embedded as a first-occurrence scan
plus explicit post-processing, as documented on each definition.
-/

namespace JournalKit

/-- Python whitespace (`str.strip`, regex `\s`): space, tab, newline,
carriage return, vertical tab, form feed. -/
def isPySpace (c : Char) : Bool :=
  c = ' ' || c = '\t' || c = '\n' || c = '\r' || c.val = 11 || c.val = 12

/-- Python regex `\w` (ASCII range): letters, digits, underscore. -/
def isWordChar (c : Char) : Bool := c.isAlphanum || c = '_'

/-- Python `str.strip()`: drop leading and trailing whitespace. -/
def pyStrip (l : List Char) : List Char :=
  ((l.dropWhile isPySpace).reverse.dropWhile isPySpace).reverse

/-- `occursIn pat l` holds when `pat` occurs as a contiguous substring of `l`
(Python's `pat in l`; also where `re.search` finds a literal). -/
def occursIn (pat : List Char) : List Char → Bool
  | [] => pat.isPrefixOf []
  | c :: t => pat.isPrefixOf (c :: t) || occursIn pat t

/-- The remainder of the text just after the first occurrence of `pat`
(what follows a leftmost regex match of the literal `pat`); `none` when
`pat` does not occur. -/
def afterFirst (pat : List Char) : List Char → Option (List Char)
  | [] => none
  | c :: t =>
    if pat.isPrefixOf (c :: t) then some ((c :: t).drop pat.length)
    else afterFirst pat t

/-- Number of occurrence positions of `pat` in `l`. -/
def countOcc (pat : List Char) : List Char → Nat
  | [] => 0
  | c :: t => (if pat.isPrefixOf (c :: t) then 1 else 0) + countOcc pat t

/-- Scanning part of `[A-Z]+:` after its first mandatory uppercase letter:
a colon ends the run, an uppercase letter continues it. -/
def colonRun : List Char → Bool
  | [] => false
  | c :: t => c = ':' || (c.isUpper && colonRun t)

/-- `[A-Z]+:` at the head of the list: at least one ASCII uppercase letter,
then (within the run) a colon. -/
def ucColon : List Char → Bool
  | [] => false
  | c :: t => c.isUpper && colonRun t

/-- The section-boundary lookahead `\n\n[A-Z]+:` tested at the head. -/
def boundaryB : List Char → Bool
  | a :: b :: r => a = '\n' && b = '\n' && ucColon r
  | _ => false

/-- Characters before the first position where the section boundary
`\n\n[A-Z]+:` begins (all of them when it never does): the lazy capture
`(.*?)(?=\n\n[A-Z]+:|\Z)` under `re.DOTALL`. -/
def takeUntilBoundary : List Char → List Char
  | [] => []
  | c :: t => if boundaryB (c :: t) then [] else c :: takeUntilBoundary t

/-- Whether the section boundary `\n\n[A-Z]+:` occurs anywhere in `l`. -/
def hasBoundary : List Char → Bool
  | [] => false
  | c :: t => boundaryB (c :: t) || hasBoundary t

/-- Model of `re.search(r'LABEL:\s*(.*?)(?=\n\n[A-Z]+:|\Z)', content, re.DOTALL)`
followed by `.group(1).strip()`: the match starts at the first occurrence of
the literal label (the lazy tail always succeeds via `\Z`), the greedy `\s*`
never backtracks for the same reason, and the lazy capture stops at the first
boundary position. -/
def searchSection (label content : List Char) : Option (List Char) :=
  (afterFirst label content).map fun r =>
    pyStrip (takeUntilBoundary (r.dropWhile isPySpace))

/-- Model of `re.search(r'LABEL (.*?)$', content, re.MULTILINE)` followed by
`.group(1)`: the capture runs from just after the first occurrence of the
label to the end of that line (the earliest `$` under `re.MULTILINE`). -/
def searchLine (label content : List Char) : Option (List Char) :=
  (afterFirst label content).map (List.takeWhile (fun c => c != '\n'))

/-- The lazy `(.*?)$` capture under `re.DOTALL` without `re.MULTILINE`:
`$` first matches just before a trailing newline when one exists, else at
the very end. -/
def dollarBody (l : List Char) : List Char :=
  match l.reverse with
  | '\n' :: r => r.reverse
  | _ => l

/-- Model of `re.search(r'CLAUDE ANALYSIS:\s*(.*?)$', content, re.DOTALL)`
followed by `.group(1).strip()`. -/
def searchToEnd (label content : List Char) : Option (List Char) :=
  (afterFirst label content).map fun r =>
    pyStrip (dollarBody (r.dropWhile isPySpace))

/-- Python `str.split(sep)` for a one-character separator: empty pieces are
kept and splitting the empty string yields one empty piece. -/
def splitOnChar (sep : Char) : List Char → List (List Char)
  | [] => [[]]
  | c :: t =>
    if c = sep then [] :: splitOnChar sep t
    else
      match splitOnChar sep t with
      | [] => [[c]]
      | h :: r => (c :: h) :: r

def titleLabel : List Char := "TITLE: ".toList
def authorsLabel : List Char := "AUTHORS: ".toList
def yearLabel : List Char := "YEAR: ".toList
def abstractLabel : List Char := "ABSTRACT:".toList
def introLabel : List Char := "INTRODUCTION:".toList
def claudeLabel : List Char := "CLAUDE ANALYSIS:".toList
def summaryLabel : List Char := "SUMMARY:".toList
def gapLabel : List Char := "RESEARCH GAP/PROBLEM:".toList
def objectivesLabel : List Char := "OBJECTIVES:".toList
def keywordsLabel : List Char := "KEYWORDS:".toList

/-- The fields stage 3's record reader produces. -/
structure PaperData where
  title : List Char
  authors : List Char
  year : List Char
  abstract : List Char
  introduction : List Char
  summary : List Char
  gap : List Char
  objectives : List Char
  keywords : List (List Char)
  deriving Repr, DecidableEq

/-- `extract_data_from_file` of `3_create_markdown.py` (lines 28–93): label
regexes over the record text, the Claude block captured to the end of the
text, sub-sections parsed out of the Claude block, keywords split on commas
and stripped.  Missing labels yield the written sentinels or empty values. -/
def extract_data_from_file (content : List Char) : PaperData :=
  let title := (searchLine titleLabel content).getD "Unknown Title".toList
  let authors := (searchLine authorsLabel content).getD "Unknown Authors".toList
  let year := (searchLine yearLabel content).getD "Unknown Year".toList
  let abstract := (searchSection abstractLabel content).getD []
  let introduction := (searchSection introLabel content).getD []
  let claude := (searchToEnd claudeLabel content).getD []
  let summary := if claude.isEmpty then [] else (searchSection summaryLabel claude).getD []
  let gap := if claude.isEmpty then [] else (searchSection gapLabel claude).getD []
  let objectives := if claude.isEmpty then [] else (searchSection objectivesLabel claude).getD []
  let keywords := if claude.isEmpty then []
    else
      match searchSection keywordsLabel claude with
      | some kt => (splitOnChar ',' kt).map pyStrip
      | none => []
  ⟨title, authors, year, abstract, introduction, summary, gap, objectives, keywords⟩

/-- The fields stage 2's `extract_content_from_file` produces (minus the raw
content echo). -/
structure ContentData where
  title : List Char
  abstract : List Char
  introduction : List Char
  deriving Repr, DecidableEq

/-- `extract_content_from_file` of `2_analyze_with_claude.py` (lines 64–92):
same title / abstract / introduction regexes as stage 3. -/
def extract_content_from_file (content : List Char) : ContentData :=
  ⟨(searchLine titleLabel content).getD "Unknown Title".toList,
   (searchSection abstractLabel content).getD [],
   (searchSection introLabel content).getD []⟩

/-- A stage-1 in-memory record. -/
structure PaperRecord where
  title : List Char
  authors : List Char
  year : List Char
  abstract : List Char
  introduction : List Char
  deriving Repr, DecidableEq

/-- The flat text record written by `process_pdf_with_zotero`
(`1_extract_paper_data.py`, lines 261–266): the five `f.write` calls. -/
def serializeRecord (r : PaperRecord) : List Char :=
  "TITLE: ".toList ++ r.title ++ "\n".toList ++
  "AUTHORS: ".toList ++ r.authors ++ "\n".toList ++
  "YEAR: ".toList ++ r.year ++ "\n".toList ++
  "\nABSTRACT:\n".toList ++ r.abstract ++ "\n".toList ++
  "\nINTRODUCTION:\n".toList ++ r.introduction ++ "\n".toList

def claudeSectionStart : List Char := "\n\nCLAUDE ANALYSIS:".toList

/-- Everything strictly before the first occurrence of `pat` (all of `l`
when `pat` does not occur): `re.sub(r'PAT.*$', '', l, flags=re.DOTALL)`
for a literal `PAT`. -/
def removeFrom (pat : List Char) : List Char → List Char
  | [] => []
  | c :: t => if pat.isPrefixOf (c :: t) then [] else c :: removeFrom pat t

/-- `append_analysis_to_file` of `2_analyze_with_claude.py` (lines 164–185):
when `"CLAUDE ANALYSIS:"` already occurs, drop everything from the first
`"\n\nCLAUDE ANALYSIS:"` on; then append the new header and result. -/
def append_analysis_to_file (content result : List Char) : List Char :=
  (if occursIn claudeLabel content then removeFrom claudeSectionStart content else content)
  ++ "\n\nCLAUDE ANALYSIS:\n".toList ++ result

/-- The per-keyword suffix heuristic inside `ensure_keywords_in_singular`
(`3_create_markdown.py`, lines 110–119), using Python `endswith` and slices. -/
def singularizeKeyword (k : List Char) : List Char :=
  if "ies".toList.isSuffixOf k && !("series".toList.isSuffixOf k) then
    k.take (k.length - 3) ++ ['y']
  else if "es".toList.isSuffixOf k &&
      !("species".toList.isSuffixOf k || "series".toList.isSuffixOf k) then
    k.take (k.length - 2)
  else if "s".toList.isSuffixOf k &&
      !("ss".toList.isSuffixOf k || "is".toList.isSuffixOf k ||
        "us".toList.isSuffixOf k || "os".toList.isSuffixOf k) then
    k.take (k.length - 1)
  else k

/-- `ensure_keywords_in_singular` (`3_create_markdown.py`, lines 106–125):
singularize each keyword in order, dropping results that became empty. -/
def ensure_keywords_in_singular : List (List Char) → List (List Char)
  | [] => []
  | k :: rest =>
    let s := singularizeKeyword k
    if s.isEmpty then ensure_keywords_in_singular rest
    else s :: ensure_keywords_in_singular rest

/-- The suffix of `l` from the first boundary `\n\n[A-Z]+:` on (empty when
there is none): where the lazy `.*?` of the gap-removal `re.sub` stops. -/
def skipToBoundary : List Char → List Char
  | [] => []
  | c :: t => if boundaryB (c :: t) then c :: t else skipToBoundary t

theorem skipToBoundary_length (l : List Char) : (skipToBoundary l).length ≤ l.length := by
  induction l with
  | nil => simp [skipToBoundary]
  | cons c t ih =>
    by_cases h : boundaryB (c :: t)
    · simp [skipToBoundary, h]
    · simp only [skipToBoundary, if_neg h]
      exact Nat.le_trans ih (by simp)

/-- `re.sub(r'RESEARCH GAP/PROBLEM:.*?(?=\n\n[A-Z]+:|\Z)', '', s, flags=re.DOTALL)`
(`3_create_markdown.py`, line 136): every match — from a label occurrence up
to the next boundary or the end — is removed, and scanning resumes at the
boundary. -/
def subGapAll : List Char → List Char
  | [] => []
  | c :: t =>
    if gapLabel.isPrefixOf (c :: t) then
      subGapAll (skipToBoundary ((c :: t).drop gapLabel.length))
    else c :: subGapAll t
termination_by l => l.length
decreasing_by
  · simp_wf
    have h1 := skipToBoundary_length ((c :: t).drop gapLabel.length)
    have h2 : (1 : Nat) ≤ gapLabel.length := by decide
    simp only [List.length_drop] at h1
    simp only [List.length_cons] at h1 ⊢
    omega
  · simp only [List.length_cons]
    omega

/-- Lines 133–137 of `create_markdown_file`: when the parsed summary is
nonempty and contains the literal `"RESEARCH GAP/PROBLEM:"`, remove every
such section from it and strip; otherwise leave it unchanged. -/
def cleanSummary (s : List Char) : List Char :=
  if !s.isEmpty && occursIn gapLabel s then pyStrip (subGapAll s) else s

/-- `', '.join('#' + k for k in keywords)` (line 163). -/
def hashtagJoin (ks : List (List Char)) : List Char :=
  List.intercalate ", ".toList (ks.map (fun k => '#' :: k))

/-- The fixed order of possible H1 headings in `create_markdown_file`. -/
def mdFixedOrder : List (List Char) :=
  ["TITLE".toList, "AUTHOR".toList, "SUMMARY".toList, "KEYWORDS".toList,
   "RESEARCH GAP/PROBLEM".toList, "OBJECTIVES".toList, "ABSTRACT".toList]

/-- The ordered (heading, body) H1 sections of the markdown that
`create_markdown_file` (lines 150–175) writes: TITLE and AUTHOR always, then
SUMMARY / KEYWORDS / RESEARCH GAP/PROBLEM / OBJECTIVES / ABSTRACT, each only
when its content is non-empty (Python truthiness of the corresponding
value), with the summary first cleaned and the keywords singularized. -/
def mdSections (d : PaperData) : List (List Char × List Char) :=
  let keywords := ensure_keywords_in_singular d.keywords
  let summary := cleanSummary d.summary
  [("TITLE".toList, d.title), ("AUTHOR".toList, d.authors)]
  ++ (if summary.isEmpty then [] else [("SUMMARY".toList, summary)])
  ++ (if keywords.isEmpty then [] else [("KEYWORDS".toList, hashtagJoin keywords)])
  ++ (if d.gap.isEmpty then [] else [("RESEARCH GAP/PROBLEM".toList, d.gap)])
  ++ (if d.objectives.isEmpty then [] else [("OBJECTIVES".toList, d.objectives)])
  ++ (if d.abstract.isEmpty then [] else [("ABSTRACT".toList, d.abstract)])

def mdHeadings (d : PaperData) : List (List Char) := (mdSections d).map Prod.fst

/-- The `tags` entry of the YAML frontmatter (lines 131 and 144): the
singularized keyword list. -/
def frontmatterTags (d : PaperData) : List (List Char) :=
  ensure_keywords_in_singular d.keywords

/-- An exception raised by the PDF library while opening or reading a file. -/
inductive PdfError where
  | failure (msg : List Char)
  deriving Repr, DecidableEq

/-- What `extract_year`'s `try` block reads from the opened document:
the two metadata date strings (empty when absent, matching the dict
truthiness test) and the page-1 text. -/
structure YearSource where
  creationDate : List Char
  modDate : List Char
  firstPageText : List Char
  deriving Repr, DecidableEq

/-- Four consecutive digits at the head. -/
def fourDigitsAt : List Char → Option (List Char)
  | a :: b :: c :: d :: _ =>
    if a.isDigit && b.isDigit && c.isDigit && d.isDigit then some [a, b, c, d]
    else none
  | _ => none

/-- `re.search(r'(\d{4})', s)`: the first four consecutive digits. -/
def findFourDigits : List Char → Option (List Char)
  | [] => none
  | c :: t =>
    match fourDigitsAt (c :: t) with
    | some y => some y
    | none => findFourDigits t

/-- `D:(\d{4})` tested at the head. -/
def dYearAt : List Char → Option (List Char)
  | 'D' :: ':' :: r => fourDigitsAt r
  | _ => none

/-- `re.search(r'D:(\d{4})', s)`. -/
def findDYear : List Char → Option (List Char)
  | [] => none
  | c :: t =>
    match dYearAt (c :: t) with
    | some y => some y
    | none => findDYear t

/-- `(19|20)\d{2}` at the head, with the trailing `\b` (next character, if
any, is not a word character). -/
def yearTokenAt : List Char → Option (List Char)
  | c1 :: c2 :: c3 :: c4 :: rest =>
    if ((c1 = '1' && c2 = '9') || (c1 = '2' && c2 = '0')) && c3.isDigit && c4.isDigit
        && (match rest with | [] => true | r :: _ => !isWordChar r) then
      some [c1, c2, c3, c4]
    else none
  | _ => none

/-- Scan for `\b(19|20)\d{2}\b`; the flag records whether the previous
character was a word character (so that there is no boundary here). -/
def findYearTokenAux : Bool → List Char → Option (List Char)
  | _, [] => none
  | prevWord, c :: t =>
    match (if prevWord then none else yearTokenAt (c :: t)) with
    | some y => some y
    | none => findYearTokenAux (isWordChar c) t

/-- `re.search(r'\b(19|20)\d{2}\b', s)`. -/
def findYearToken (l : List Char) : Option (List Char) := findYearTokenAux false l

def unknownYear : List Char := "Unknown Year".toList

/-- `extract_year` of `1_extract_paper_data.py` (lines 92–120): four digits
in the file name first; otherwise open the document (anything read inside
the `try` is the `src` argument, `Except.error` when the library raises),
scan `creationDate` then `modDate` for `D:YYYY`, then the first 1000
characters of page-1 text for a `19xx`/`20xx` token; else the sentinel. -/
def extract_year (filename : List Char) (src : Except PdfError YearSource) : List Char :=
  match findFourDigits filename with
  | some y => y
  | none =>
    match src with
    | Except.error _ => unknownYear
    | Except.ok d =>
      match findDYear d.creationDate with
      | some y => y
      | none =>
        match findDYear d.modDate with
        | some y => y
        | none =>
          match findYearToken (d.firstPageText.take 1000) with
          | some y => y
          | none => unknownYear

/-- What `extract_title_authors_from_pdf`'s `try` block reads from the
opened document. -/
structure PdfDocInfo where
  metaTitle : List Char
  metaAuthor : List Char
  firstPageText : List Char
  deriving Repr, DecidableEq

/-- Python `str.lower()` on the ASCII range. -/
def lowered (l : List Char) : List Char := l.map Char.toLower

/-- A literal at the head followed by a `\b` (next character, if any, not a
word character). -/
def boundedAt (pat l : List Char) : Bool :=
  pat.isPrefixOf l &&
    (match l.drop pat.length with | [] => true | c :: _ => !isWordChar c)

/-- Scan for `\bPAT\b`; the flag records whether the previous character was
a word character. -/
def occursBoundedAux (pat : List Char) : Bool → List Char → Bool
  | _, [] => false
  | prevWord, c :: t =>
    (!prevWord && boundedAt pat (c :: t)) || occursBoundedAux pat (isWordChar c) t

/-- `re.search(r'by|authors?:|et al\.|\bcorresponding author\b', line, re.IGNORECASE)`
(line 81): does the line signal an author line? -/
def lineSignalsAuthors (line : List Char) : Bool :=
  let lw := lowered line
  occursIn "by".toList lw || occursIn "author:".toList lw ||
  occursIn "authors:".toList lw || occursIn "et al.".toList lw ||
  occursBoundedAux "corresponding author".toList false lw

/-- The length matched by the alternation `(by|authors?:|corresponding author:?)`
at the head of the lowercased line, following the regex engine's
left-to-right alternation and greedy `s?` / `:?` preference. -/
def authorPrefixLen (lw : List Char) : Option Nat :=
  if "by".toList.isPrefixOf lw then some 2
  else if "authors:".toList.isPrefixOf lw then some 8
  else if "author:".toList.isPrefixOf lw then some 7
  else if "corresponding author:".toList.isPrefixOf lw then some 21
  else if "corresponding author".toList.isPrefixOf lw then some 20
  else none

/-- `re.sub(r'^\s*(by|authors?:|corresponding author:?)\s*', '', authors, re.IGNORECASE)`
(line 84): strip at most one anchored prefix; when the alternation does not
match after the leading whitespace, the string is unchanged. -/
def stripAuthorPrefix (l : List Char) : List Char :=
  let sp := l.dropWhile isPySpace
  match authorPrefixLen (lowered sp) with
  | none => l
  | some n => (sp.drop n).dropWhile isPySpace

def unknownTitle : List Char := "Unknown Title".toList
def unknownAuthor : List Char := "Unknown Author".toList

/-- `extract_title_authors_from_pdf` of `1_extract_paper_data.py`
(lines 54–90).  The whole body runs inside `try`; any exception from the
PDF library (the `Except.error` case of the input) yields the sentinel
pair.  Otherwise: metadata title/author stripped; a placeholder title falls
back to the first non-blank line of page 1; a missing author falls back to
the first of the first 15 lines matching the author-signal regex, with the
anchored prefix stripped. -/
def extract_title_authors_from_pdf (doc : Except PdfError PdfDocInfo) :
    List Char × List Char :=
  match doc with
  | Except.error _ => (unknownTitle, unknownAuthor)
  | Except.ok d =>
    let title0 := pyStrip d.metaTitle
    let authors0 := pyStrip d.metaAuthor
    let title :=
      if title0.isEmpty || lowered title0 = "untitled".toList ||
          lowered title0 = "document".toList then
        match (splitOnChar '\n' d.firstPageText).find? (fun ln => !(pyStrip ln).isEmpty) with
        | some ln => pyStrip ln
        | none => title0
      else title0
    let authors :=
      if authors0.isEmpty || authors0 = "Unknown Author".toList then
        match ((splitOnChar '\n' d.firstPageText).take 15).find? lineSignalsAuthors with
        | some ln => stripAuthorPrefix (pyStrip ln)
        | none => authors0
      else authors0
    (title, authors)

/-- Four digits at the head, returning them and the remainder. -/
def fourDigitsSplit : List Char → Option (List Char × List Char)
  | a :: b :: c :: d :: rest =>
    if a.isDigit && b.isDigit && c.isDigit && d.isDigit then some ([a, b, c, d], rest)
    else none
  | _ => none

/-- The tail `\s*-\s*(\d{4})\s*-\s*(.*)` of filename pattern 1, tested after
the lazy author group.  Whitespace runs are consumed greedily and never
backtracked (no whitespace character can match the following literal), the
year is exactly four digits, and the final `\s*(.*)` always succeeds. -/
def p1After (rest : List Char) : Option (List Char) :=
  match rest.dropWhile isPySpace with
  | '-' :: r2 =>
    match fourDigitsSplit (r2.dropWhile isPySpace) with
    | some (y, r4) =>
      match r4.dropWhile isPySpace with
      | '-' :: _ => some y
      | _ => none
    | none => none
  | _ => none

/-- The lazy author group of `re.match(r'(.*?)\s*-\s*(\d{4})\s*-\s*(.*)', s)`:
shortest author first, never crossing a newline (`.` without `re.DOTALL`). -/
def matchP1Aux : List Char → List Char → Option (List Char × List Char)
  | acc, [] => (p1After []).map (fun y => (acc.reverse, y))
  | acc, c :: t =>
    match p1After (c :: t) with
    | some y => some (acc.reverse, y)
    | none => if c = '\n' then none else matchP1Aux (c :: acc) t

/-- Filename pattern 1, `'Author - Year - Title'` (line 133). -/
def matchPattern1 (s : List Char) : Option (List Char × List Char) :=
  matchP1Aux [] s

/-- The tail `_(\d{4})_(.*)` of filename pattern 2. -/
def p2After (rest : List Char) : Option (List Char) :=
  match rest with
  | '_' :: r2 =>
    match fourDigitsSplit r2 with
    | some (y, r4) =>
      match r4 with
      | '_' :: _ => some y
      | _ => none
    | none => none
  | _ => none

/-- The lazy author group of `re.match(r'(.*?)_(\d{4})_(.*)', s)`. -/
def matchP2Aux : List Char → List Char → Option (List Char × List Char)
  | acc, [] => (p2After []).map (fun y => (acc.reverse, y))
  | acc, c :: t =>
    match p2After (c :: t) with
    | some y => some (acc.reverse, y)
    | none => if c = '\n' then none else matchP2Aux (c :: acc) t

/-- Filename pattern 2, `'Author_Year_Title'` (line 145). -/
def matchPattern2 (s : List Char) : Option (List Char × List Char) :=
  matchP2Aux [] s

/-- `\s|_`. -/
def isSepChar (c : Char) : Bool := isPySpace c || c = '_'

/-- The tail `(?:\s|_)(\d{4})(?:\s|_)` of filename pattern 3: one separator,
exactly four digits, one separator. -/
def p3After (rest : List Char) : Option (List Char) :=
  match rest with
  | c :: r2 =>
    if isSepChar c then
      match r2 with
      | a :: b :: c3 :: d :: e :: _ =>
        if a.isDigit && b.isDigit && c3.isDigit && d.isDigit && isSepChar e then
          some [a, b, c3, d]
        else none
      | _ => none
    else none
  | [] => none

/-- `re.search(r'(.*?)(?:\s|_)(\d{4})(?:\s|_)', s)`: leftmost start, then
shortest author; a newline ends the author group, in which case the search
restarts past it (matches at intermediate starts were already covered,
since the tail test does not depend on where the author group began). -/
def matchP3Aux : List Char → List Char → Option (List Char × List Char)
  | _, [] => none
  | acc, c :: t =>
    match p3After (c :: t) with
    | some y => some (acc.reverse, y)
    | none => if c = '\n' then matchP3Aux [] t else matchP3Aux (c :: acc) t

/-- Filename pattern 3 (line 155). -/
def matchPattern3 (s : List Char) : Option (List Char × List Char) :=
  matchP3Aux [] s

/-- Pattern-1 author cleanup (lines 136–141): `strip`, remove periods,
spaces to underscores, then `re.sub(r'[^\w_]', '', ·)`. -/
def cleanAuthorP1 (a : List Char) : List Char :=
  (((pyStrip a).filter (fun c => c != '.')).map
    (fun c => if c = ' ' then '_' else c)).filter isWordChar

/-- Pattern-2 author cleanup (lines 148–151): spaces to underscores, then
remove non-word characters (no strip, no period removal). -/
def cleanAuthorP2 (a : List Char) : List Char :=
  (a.map (fun c => if c = ' ' then '_' else c)).filter isWordChar

/-- Pattern-3 author cleanup (lines 158–163): remove periods, `strip`,
spaces to underscores, remove non-word characters. -/
def cleanAuthorP3 (a : List Char) : List Char :=
  ((pyStrip (a.filter (fun c => c != '.'))).map
    (fun c => if c = ' ' then '_' else c)).filter isWordChar

/-- Replace each maximal run of underscores by a single underscore:
`re.sub(r'_+', '_', s)`.  The flag records whether the previous kept
character closed an underscore run. -/
def collapseAux : Bool → List Char → List Char
  | _, [] => []
  | prevU, c :: t =>
    if c = '_' then (if prevU then collapseAux true t else '_' :: collapseAux true t)
    else c :: collapseAux false t

/-- The pattern-4 fallback (lines 167–170): every non-word character to an
underscore, then collapse repeated underscores. -/
def fallbackClean (s : List Char) : List Char :=
  collapseAux false (s.map (fun c => if isWordChar c then c else '_'))

/-- `normalize_filename` of `1_extract_paper_data.py` (lines 122–170), on
the extension-less base name (`os.path` plumbing is outside the model):
the four patterns attempted in order, first match wins. -/
def normalize_filename (base : List Char) : List Char :=
  match matchPattern1 base with
  | some (a, y) => cleanAuthorP1 a ++ '_' :: y
  | none =>
    match matchPattern2 base with
    | some (a, y) => cleanAuthorP2 a ++ '_' :: y
    | none =>
      match matchPattern3 base with
      | some (a, y) => cleanAuthorP3 a ++ '_' :: y
      | none => fallbackClean base

/-! ### Occurrence and prefix toolbox -/

theorem occursIn_iff {pat l : List Char} : occursIn pat l = true ↔ pat <:+: l := by
  induction l with
  | nil => simp [ occursIn]
  | cons c t ih =>
    rw [ occursIn, Bool.or_eq_true, ih, List.infix_cons_iff, List.isPrefixOf_iff_prefix]

theorem occursIn_false_iff {pat l : List Char} : occursIn pat l = false ↔ ¬ pat <:+: l := by
  rw [Bool.eq_false_iff, Ne, occursIn_iff]

theorem occursIn_of_ifx {pat s l : List Char} (hs : s <:+: l)
    (h : occursIn pat l = false) : occursIn pat s = false := by
  rw [occursIn_false_iff] at h ⊢
  exact fun hc => h (hc.trans hs)

theorem pfx_of_append {p x y : List Char} (h : p <+: x ++ y) (hl : p.length ≤ x.length) :
    p <+: x :=
  List.prefix_of_prefix_length_le h (List.prefix_append x y) hl

theorem shorter_pfx {p x y : List Char} (h : p <+: x ++ y) (hl : x.length ≤ p.length) :
    x <+: p :=
  List.prefix_of_prefix_length_le (List.prefix_append x y) h hl

/-- `pat` has no nonempty proper border: no nonempty proper suffix of `pat`
is also a prefix of `pat`.  Every fixed label of the record format has this
property (each is checked by `decide`); it makes occurrences of the label
unable to straddle a position where the label itself starts. -/
def Unbordered (pat : List Char) : Prop :=
  ∀ k < pat.length, 0 < k → ¬ pat.drop k <+: pat

instance (pat : List Char) : Decidable (Unbordered pat) := by
  unfold Unbordered
  infer_instance

theorem pfx_span {pat s b : List Char} (hU : Unbordered pat)
    (h : pat <+: s ++ (pat ++ b)) : pat <+: s ∨ s = [] := by
  by_cases hs : s = []
  · exact Or.inr hs
  by_cases hl : pat.length ≤ s.length
  · exact Or.inl (pfx_of_append h hl)
  exfalso
  push_neg at hl
  have hsp : s <+: pat :=
    List.prefix_of_prefix_length_le (List.prefix_append _ _) h (Nat.le_of_lt hl)
  obtain ⟨d, hd⟩ := hsp
  have hdp : d <+: pat ++ b := by
    have h' : s ++ d <+: s ++ (pat ++ b) := by
      calc s ++ d = pat := hd
        _ <+: s ++ (pat ++ b) := h
    exact (List.prefix_append_right_inj s).mp h'
  have hdlen : d.length ≤ pat.length := by
    have := congrArg List.length hd
    simp only [List.length_append] at this
    omega
  have hdp2 : d <+: pat := pfx_of_append hdp hdlen
  have hddrop : pat.drop s.length = d := by
    rw [← hd, List.drop_left]
  have hpos : 0 < s.length := List.length_pos.mpr hs
  exact hU s.length hl hpos (hddrop ▸ hdp2)

theorem afterFirst_self {pat y : List Char} (hp : pat ≠ []) :
    afterFirst pat (pat ++ y) = some y := by
  cases pat with
  | nil => exact absurd rfl hp
  | cons c t =>
    show afterFirst (c :: t) (c :: (t ++ y)) = some y
    rw [ afterFirst]
    have hpre : (c :: t).isPrefixOf (c :: (t ++ y)) = true := by
      rw [List.isPrefixOf_iff_prefix]
      exact by simpa using List.prefix_append (c :: t) y
    rw [hpre]
    simp only [if_true]
    congr 1
    exact List.drop_left (c :: t) y

theorem afterFirst_append {pat x y : List Char} (hU : Unbordered pat) (hp : pat ≠ [])
    (hx : ¬ pat <:+: x) : afterFirst pat (x ++ (pat ++ y)) = some y := by
  induction x with
  | nil => simpa using afterFirst_self hp
  | cons c t ih =>
    have hnp : pat.isPrefixOf (c :: (t ++ (pat ++ y))) = false := by
      rw [Bool.eq_false_iff, Ne, List.isPrefixOf_iff_prefix]
      intro hc
      have hc2 : pat <+: (c :: t) ++ (pat ++ y) := by simpa using hc
      rcases pfx_span hU hc2 with h1 | h1
      · exact hx h1.isInfix
      · cases h1
    show afterFirst pat (c :: (t ++ (pat ++ y))) = some y
    rw [ afterFirst, hnp]
    simp only [Bool.false_eq_true, if_false]
    exact ih (fun hc => hx (List.infix_cons hc))

theorem pfx_no_newline {pat a b : List Char} (hn : '\n' ∉ pat)
    (h : pat <+: a ++ '\n' :: b) : pat <+: a := by
  by_cases hl : pat.length ≤ a.length
  · exact pfx_of_append h hl
  exfalso
  push_neg at hl
  have h2 : pat <+: (a ++ ['\n']) ++ b := by simpa using h
  have h3 : a ++ ['\n'] <+: pat := by
    apply shorter_pfx h2
    simp only [List.length_append, List.length_cons, List.length_nil]
    omega
  exact hn (h3.subset (by simp))

theorem ifx_no_newline {pat a b : List Char} (hn : '\n' ∉ pat)
    (h : pat <:+: a ++ '\n' :: b) : pat <:+: a ∨ pat <:+: b := by
  induction a with
  | nil =>
    simp only [List.nil_append] at h
    rcases List.infix_cons_iff.mp h with h1 | h1
    · rcases pat with _ | ⟨p0, pt⟩
      · exact Or.inl (by simp)
      · exfalso
        rcases List.cons_prefix_cons.mp h1 with ⟨rfl, -⟩
        exact hn (by simp)
    · exact Or.inr h1
  | cons c t ih =>
    rw [List.cons_append] at h
    rcases List.infix_cons_iff.mp h with h1 | h1
    · left
      exact (pfx_no_newline hn (by simpa using h1)).isInfix
    · rcases ih h1 with h2 | h2
      · exact Or.inl (List.infix_cons h2)
      · exact Or.inr h2

/-- No nonempty suffix of `w` is prefix-comparable with `pat`: rules out an
occurrence of `pat` starting inside `w` (checked by `decide` for each
concrete label pair that needs it). -/
def StartClear (w pat : List Char) : Prop :=
  ∀ i < w.length, ¬ (w.drop i <+: pat) ∧ ¬ (pat <+: w.drop i)

theorem ifx_start_clear {w pat t : List Char} (hw : StartClear w pat)
    (h : pat <:+: w ++ t) : pat <:+: t := by
  induction w with
  | nil => simpa using h
  | cons c w' ih =>
    rw [List.cons_append] at h
    rcases List.infix_cons_iff.mp h with h1 | h1
    · exfalso
      by_cases hl : pat.length ≤ (c :: w').length
      · have h2 : pat <+: c :: w' := pfx_of_append (by simpa using h1) hl
        exact (hw 0 (by simp)).2 h2
      · push_neg at hl
        have h2 : c :: w' <+: pat := shorter_pfx (by simpa using h1) (Nat.le_of_lt hl)
        exact (hw 0 (by simp)).1 h2
    · refine ih (fun i hi => ?_) h1
      exact hw (i + 1) (by simpa using Nat.succ_lt_succ hi)

theorem removeFrom_pfx (pat l : List Char) : removeFrom pat l <+: l := by
  induction l with
  | nil => simp [ removeFrom]
  | cons c t ih =>
    rw [ removeFrom]
    split
    · simp
    · exact List.cons_prefix_cons.mpr ⟨rfl, ih⟩

theorem removeFrom_clean {pat : List Char} (hp : pat ≠ []) (l : List Char) :
    ¬ pat <:+: removeFrom pat l := by
  induction l with
  | nil => simp [ removeFrom, hp]
  | cons c t ih =>
    rw [ removeFrom]
    split
    · simp [hp]
    · rename_i hcond
      intro hc
      rcases List.infix_cons_iff.mp hc with h1 | h1
      · apply hcond
        rw [List.isPrefixOf_iff_prefix]
        exact h1.trans (List.cons_prefix_cons.mpr ⟨rfl, removeFrom_pfx pat t⟩)
      · exact ih h1

theorem removeFrom_append {pat a b : List Char} (hU : Unbordered pat) (hp : pat ≠ [])
    (ha : ¬ pat <:+: a) : removeFrom pat (a ++ (pat ++ b)) = a := by
  induction a with
  | nil =>
    cases pat with
    | nil => exact absurd rfl hp
    | cons c t =>
      show removeFrom (c :: t) (c :: (t ++ b)) = []
      rw [ removeFrom]
      have hpre : (c :: t).isPrefixOf (c :: (t ++ b)) = true := by
        rw [List.isPrefixOf_iff_prefix]
        exact by simpa using List.prefix_append (c :: t) b
      rw [hpre]
      simp
  | cons c a' ih =>
    have hnp : pat.isPrefixOf (c :: (a' ++ (pat ++ b))) = false := by
      rw [Bool.eq_false_iff, Ne, List.isPrefixOf_iff_prefix]
      intro hc
      have hc2 : pat <+: (c :: a') ++ (pat ++ b) := by simpa using hc
      rcases pfx_span hU hc2 with h1 | h1
      · exact ha h1.isInfix
      · cases h1
    show removeFrom pat (c :: (a' ++ (pat ++ b))) = c :: a'
    rw [ removeFrom, hnp]
    simp only [Bool.false_eq_true, if_false, List.cons.injEq, true_and]
    exact ih (fun hc => ha (List.infix_cons hc))

theorem countOcc_zero_iff {pat l : List Char} (hp : pat ≠ []) :
    countOcc pat l = 0 ↔ ¬ pat <:+: l := by
  induction l with
  | nil => simp [ countOcc, hp]
  | cons c t ih =>
    rw [ countOcc]
    constructor
    · intro h hc
      rcases List.infix_cons_iff.mp hc with h2 | h2
      · rw [if_pos (List.isPrefixOf_iff_prefix.mpr h2)] at h
        omega
      · have h1 : countOcc pat t = 0 := by
          by_cases hb : pat.isPrefixOf (c :: t) <;> simp [hb] at h <;> omega
        exact (ih.mp h1) h2
    · intro hc
      have h2 : pat.isPrefixOf (c :: t) = false := by
        rw [Bool.eq_false_iff, Ne, List.isPrefixOf_iff_prefix]
        exact fun h => hc h.isInfix
      rw [h2]
      simp only [Bool.false_eq_true, if_false, Nat.zero_add]
      exact ih.mpr (fun h => hc (List.infix_cons h))

theorem countOcc_drop_zero {pat z : List Char} (hU : Unbordered pat) :
    ∀ (s : List Char) (j : Nat), 0 < j → s = pat.drop j →
      countOcc pat (s ++ z) = countOcc pat z := by
  intro s
  induction s with
  | nil => intro j _ _; simp
  | cons c s' ih =>
    intro j hj hs
    have hjlt : j < pat.length := by
      by_contra hge
      push_neg at hge
      rw [List.drop_eq_nil_of_le hge] at hs
      cases hs
    have hnp : pat.isPrefixOf (c :: (s' ++ z)) = false := by
      rw [Bool.eq_false_iff, Ne, List.isPrefixOf_iff_prefix]
      intro hc
      have hc2 : pat <+: (c :: s') ++ z := by simpa using hc
      have h2 : c :: s' <+: pat := by
        apply List.prefix_of_prefix_length_le (List.prefix_append _ _) hc2
        have : (c :: s').length = pat.length - j := by
          rw [hs, List.length_drop]
        omega
      rw [hs] at h2
      exact hU j hjlt hj h2
    show countOcc pat (c :: (s' ++ z)) = countOcc pat z
    rw [ countOcc, hnp]
    simp only [Bool.false_eq_true, if_false, Nat.zero_add]
    refine ih (j + 1) (by omega) ?_
    have hdd : pat.drop (j + 1) = (pat.drop j).drop 1 := by
      rw [List.drop_drop]
    rw [hdd, ← hs]
    rfl

theorem countOcc_self_append {pat z : List Char} (hU : Unbordered pat) (hp : pat ≠ []) :
    countOcc pat (pat ++ z) = 1 + countOcc pat z := by
  cases pat with
  | nil => exact absurd rfl hp
  | cons c t =>
    show countOcc (c :: t) (c :: (t ++ z)) = 1 + countOcc (c :: t) z
    rw [ countOcc]
    have h1 : (c :: t).isPrefixOf (c :: (t ++ z)) = true := by
      rw [List.isPrefixOf_iff_prefix]
      exact by simpa using List.prefix_append (c :: t) z
    rw [h1]
    simp only [if_true]
    congr 1
    exact countOcc_drop_zero hU t 1 Nat.one_pos rfl

theorem countOcc_before_append {pat p y : List Char} (hU : Unbordered pat)
    (hnp : ¬ pat <:+: p) : countOcc pat (p ++ (pat ++ y)) = countOcc pat (pat ++ y) := by
  induction p with
  | nil => simp
  | cons c q ih =>
    have hf : pat.isPrefixOf (c :: (q ++ (pat ++ y))) = false := by
      rw [Bool.eq_false_iff, Ne, List.isPrefixOf_iff_prefix]
      intro hc
      have hc2 : pat <+: (c :: q) ++ (pat ++ y) := by simpa using hc
      rcases pfx_span hU hc2 with h1 | h1
      · exact hnp h1.isInfix
      · cases h1
    show countOcc pat (c :: (q ++ (pat ++ y))) = countOcc pat (pat ++ y)
    rw [ countOcc, hf]
    simp only [Bool.false_eq_true, if_false, Nat.zero_add]
    exact ih (fun h => hnp (List.infix_cons h))

/-! ### Facts about the CLAUDE ANALYSIS section marker -/

theorem claudeSectionStart_eq : claudeSectionStart = '\n' :: '\n' :: claudeLabel := by decide

theorem claudeLabel_ne : claudeLabel ≠ [] := by decide

theorem claudeSectionStart_ne : claudeSectionStart ≠ [] := by decide

theorem claudeSectionStart_unbordered : Unbordered claudeSectionStart := by decide

theorem claudeHeader_eq : "\n\nCLAUDE ANALYSIS:\n".toList = claudeSectionStart ++ ['\n'] := by
  decide

theorem claudeLabel_ifx_start : claudeLabel <:+: claudeSectionStart :=
  ⟨['\n', '\n'], [], by decide⟩

theorem clean_of_label_free {x : List Char} (h : ¬ claudeLabel <:+: x) :
    ¬ claudeSectionStart <:+: x :=
  fun hc => h (claudeLabel_ifx_start.trans hc)

theorem stripPart_clean (c : List Char) :
    ¬ claudeSectionStart <:+:
      (if occursIn claudeLabel c then removeFrom claudeSectionStart c else c) := by
  split
  · exact removeFrom_clean claudeSectionStart_ne c
  · rename_i hocc
    apply clean_of_label_free
    rw [← occursIn_false_iff]
    exact Bool.eq_false_iff.mpr hocc

theorem label_in_appended (c1 r : List Char) :
    occursIn claudeLabel (c1 ++ (claudeSectionStart ++ ('\n' :: r))) = true := by
  rw [occursIn_iff]
  refine ⟨c1 ++ ['\n', '\n'], '\n' :: r, ?_⟩
  rw [claudeSectionStart_eq]
  simp

/-- Claim C3: appending a second `AnalysisResult` to a record text that
already carries a CLAUDE ANALYSIS section leaves exactly one
`"\n\nCLAUDE ANALYSIS:"` section start in the final text, and everything
from it on is exactly the new header plus the second result: the first
analysis is discarded wholesale, never merged.  The second result is
assumed not to contain the section label itself. -/
theorem claim3_reanalysis_idempotent (c r1 r2 : List Char)
    (h2 : occursIn claudeLabel r2 = false) :
    countOcc claudeSectionStart
        (append_analysis_to_file (append_analysis_to_file c r1) r2) = 1
    ∧ ∃ p, occursIn claudeSectionStart p = false
        ∧ append_analysis_to_file (append_analysis_to_file c r1) r2
            = p ++ claudeSectionStart ++ '\n' :: r2 := by
  set c1 := (if occursIn claudeLabel c then removeFrom claudeSectionStart c else c) with hc1
  have hclean : ¬ claudeSectionStart <:+: c1 := stripPart_clean c
  have happ1 : append_analysis_to_file c r1
      = c1 ++ (claudeSectionStart ++ ('\n' :: r1)) := by
    rw [ append_analysis_to_file, claudeHeader_eq, ← hc1]
    simp
  have hocc1 : occursIn claudeLabel (append_analysis_to_file c r1) = true := by
    rw [happ1]
    exact label_in_appended c1 r1
  have happ2 : append_analysis_to_file (append_analysis_to_file c r1) r2
      = c1 ++ (claudeSectionStart ++ ('\n' :: r2)) := by
    rw [ append_analysis_to_file, if_pos hocc1, happ1,
      removeFrom_append claudeSectionStart_unbordered claudeSectionStart_ne hclean,
      claudeHeader_eq]
    simp
  have hno : ¬ claudeSectionStart <:+: ('\n' :: r2) := by
    intro hc
    have hl : claudeLabel <:+: '\n' :: r2 := claudeLabel_ifx_start.trans hc
    rcases List.infix_cons_iff.mp hl with h1 | h1
    · have hcl : claudeLabel = 'C' :: "LAUDE ANALYSIS:".toList := by decide
      rw [hcl] at h1
      rcases List.cons_prefix_cons.mp h1 with ⟨hch, -⟩
      exact absurd hch (by decide)
    · exact (occursIn_false_iff.mp h2) h1
  constructor
  · rw [happ2, countOcc_before_append claudeSectionStart_unbordered hclean,
      countOcc_self_append claudeSectionStart_unbordered claudeSectionStart_ne,
      (countOcc_zero_iff claudeSectionStart_ne).mpr hno]
  · exact ⟨c1, occursIn_false_iff.mpr hclean, by rw [happ2]; simp [List.append_assoc]⟩

/-- Concrete instance of `claim3_reanalysis_idempotent`, its hypothesis
discharged by evaluation. -/
theorem claim3_reanalysis_idempotent_check :
    countOcc claudeSectionStart
        (append_analysis_to_file
          (append_analysis_to_file "TITLE: T\nAUTHORS: A".toList "SUMMARY:\nOld.".toList)
          "SUMMARY:\nNew.".toList) = 1
    ∧ ∃ p, occursIn claudeSectionStart p = false
        ∧ append_analysis_to_file
            (append_analysis_to_file "TITLE: T\nAUTHORS: A".toList "SUMMARY:\nOld.".toList)
            "SUMMARY:\nNew.".toList
            = p ++ claudeSectionStart ++ '\n' :: "SUMMARY:\nNew.".toList :=
  claim3_reanalysis_idempotent _ _ _ (by decide)

/-! ### Keyword normalization (C4, C1) -/

/-- The keyword rules exactly as the specification states them: ordered,
first matching suffix wins (`ends with` / `not in {...}` read as Python
`endswith`, as in rules 1 and 3), then empty results dropped. -/
def specSingularRule (k : List Char) : List Char :=
  if "ies".toList <:+ k ∧ ¬ "series".toList <:+ k then
    k.take (k.length - 3) ++ ['y']
  else if "es".toList <:+ k ∧ ¬ ("species".toList <:+ k ∨ "series".toList <:+ k) then
    k.take (k.length - 2)
  else if "s".toList <:+ k ∧
      ¬ ("ss".toList <:+ k ∨ "is".toList <:+ k ∨ "us".toList <:+ k ∨ "os".toList <:+ k) then
    k.take (k.length - 1)
  else k

theorem singularize_eq_spec (k : List Char) : singularizeKeyword k = specSingularRule k := by
  rw [ singularizeKeyword, specSingularRule]
  simp only [Bool.and_eq_true, Bool.not_eq_true', Bool.eq_false_iff, ne_eq,
    Bool.or_eq_true, List.isSuffixOf_iff_suffix, or_assoc]

/-- Claim C4: the keyword normalizer is exactly the ordered first-match-wins
suffix rewriting of the spec followed by dropping emptied keywords. -/
theorem claim4_keyword_rules (kws : List (List Char)) :
    ensure_keywords_in_singular kws
      = (kws.map specSingularRule).filter (fun s => !s.isEmpty) := by
  induction kws with
  | nil => rfl
  | cons k rest ih =>
    rw [ ensure_keywords_in_singular, List.map_cons, List.filter_cons,
      ← singularize_eq_spec k]
    cases h : (singularizeKeyword k).isEmpty with
    | true => simp [h, ih]
    | false => simp [h, ih]

/-- The end-to-end input of C1: the record the spec describes, with the
KEYWORDS-only analysis, produced by the pipeline's own writer and appender. -/
def c1Input : List Char :=
  append_analysis_to_file
    (serializeRecord ⟨"Foo".toList, "A. Bar".toList, "2023".toList, "X".toList, "Y".toList⟩)
    "KEYWORDS: genes, Protein_Levels, species".toList

/-- Claim C1, counterexample: on the spec's own end-to-end input the
frontmatter tags list is not `["gene", "Protein_Level", "species"]` — the
claimed output is wrong on two entries. -/
theorem claim1_counterexample :
    frontmatterTags (extract_data_from_file c1Input)
      ≠ ["gene".toList, "Protein_Level".toList, "species".toList] := by decide

/-- Claim C1 amended: `"genes"` matches the `es` rule (not the bare-`s`
rule), giving `"gen"`; `"species"` matches the `ies` rule first (whose only
exclusion is `series`), giving `"specy"`; so the tags list is
`["gen", "Protein_Level", "specy"]`. -/
theorem claim1_amended :
    frontmatterTags (extract_data_from_file c1Input)
      = ["gen".toList, "Protein_Level".toList, "specy".toList] := by decide

/-! ### Summary cleanup (C10) and markdown sections (C6) -/

theorem dropWhile_sfx (p : Char → Bool) (l : List Char) : ∃ u, u ++ l.dropWhile p = l := by
  induction l with
  | nil => exact ⟨[], rfl⟩
  | cons c t ih =>
    rw [List.dropWhile]
    split
    · obtain ⟨u, hu⟩ := ih
      exact ⟨c :: u, by rw [List.cons_append, hu]⟩
    · exact ⟨[], rfl⟩

theorem pyStrip_ifx (l : List Char) : pyStrip l <:+: l := by
  obtain ⟨u1, h1⟩ := dropWhile_sfx isPySpace l
  obtain ⟨u2, h2⟩ := dropWhile_sfx isPySpace (l.dropWhile isPySpace).reverse
  refine ⟨u1, u2.reverse, ?_⟩
  have h3 : l.dropWhile isPySpace
      = ((l.dropWhile isPySpace).reverse.dropWhile isPySpace).reverse ++ u2.reverse := by
    have h4 := congrArg List.reverse h2
    simpa [List.reverse_append] using h4.symm
  show u1 ++ pyStrip l ++ u2.reverse = l
  rw [ pyStrip, List.append_assoc, ← h3, h1]

theorem gapLabel_cons : gapLabel = 'R' :: "ESEARCH GAP/PROBLEM:".toList := by decide

theorem boundaryB_newline {l : List Char} (h : boundaryB l = true) :
    ∃ t, l = '\n' :: t := by
  match l, h with
  | a :: b :: r, h =>
    refine ⟨b :: r, ?_⟩
    simp only [ boundaryB, Bool.and_eq_true, decide_eq_true_eq] at h
    rw [h.1.1]

theorem skipToBoundary_shape (l : List Char) :
    skipToBoundary l = [] ∨ ∃ t, skipToBoundary l = '\n' :: t := by
  induction l with
  | nil => exact Or.inl rfl
  | cons c t ih =>
    rw [ skipToBoundary]
    split
    · rename_i h
      obtain ⟨u, hu⟩ := boundaryB_newline h
      exact Or.inr ⟨u, hu⟩
    · exact ih

theorem subGapAll_newline (t : List Char) :
    subGapAll ('\n' :: t) = '\n' :: subGapAll t := by
  rw [ subGapAll]
  have h : gapLabel.isPrefixOf ('\n' :: t) = false := by
    rw [gapLabel_cons]
    simp [List.isPrefixOf]
  rw [h]
  simp

/-- Any nonempty proper suffix of the gap label that is a prefix of
`subGapAll l` is already a prefix of `l`: the glued pieces cannot fabricate
new partial occurrences, because every piece after the first starts with a
newline and the label has none. -/
theorem subGap_track : ∀ (l : List Char), ∀ j, 0 < j → j < gapLabel.length →
    gapLabel.drop j <+: subGapAll l → gapLabel.drop j <+: l := by
  intro l
  induction l using subGapAll.induct with
  | case1 =>
    intro j hj hjl hp
    rw [ subGapAll] at hp
    rw [List.prefix_nil] at hp
    have : (gapLabel.drop j).length = 0 := by rw [hp]; rfl
    rw [List.length_drop] at this
    omega
  | case2 c t hpre ih =>
    intro j hj hjl hp
    exfalso
    rw [ subGapAll, if_pos hpre] at hp
    rcases skipToBoundary_shape ((c :: t).drop gapLabel.length) with hs | ⟨u, hs⟩
    · rw [hs] at hp
      rw [ subGapAll, List.prefix_nil] at hp
      have : (gapLabel.drop j).length = 0 := by rw [hp]; rfl
      rw [List.length_drop] at this
      omega
    · rw [hs, subGapAll_newline] at hp
      have hne : gapLabel.drop j ≠ [] := by
        intro hnil
        have : (gapLabel.drop j).length = 0 := by rw [hnil]; rfl
        rw [List.length_drop] at this
        omega
      obtain ⟨d0, dt, hd⟩ := List.exists_cons_of_ne_nil hne
      rw [hd] at hp
      rcases List.cons_prefix_cons.mp hp with ⟨hch, -⟩
      have hmem : d0 ∈ gapLabel := by
        have : d0 ∈ gapLabel.drop j := by rw [hd]; simp
        exact List.mem_of_mem_drop this
      rw [hch] at hmem
      revert hmem
      decide
  | case3 c t hpre ih =>
    intro j hj hjl hp
    rw [ subGapAll, if_neg hpre] at hp
    have hd : gapLabel.drop j = gapLabel.get ⟨j, by omega⟩ :: gapLabel.drop (j + 1) := by
      rw [List.drop_eq_getElem_cons (by omega)]
      rfl
    rw [hd] at hp ⊢
    rcases List.cons_prefix_cons.mp hp with ⟨hch, htail⟩
    refine List.cons_prefix_cons.mpr ⟨hch, ?_⟩
    by_cases hj1 : j + 1 < gapLabel.length
    · have := ih (j + 1) (by omega) hj1
      rw [hd] at *
      exact this (by simpa using htail)
    · have : gapLabel.drop (j + 1) = [] := by
        apply List.drop_eq_nil_of_le
        omega
      rw [this]
      simp

/-- The gap-removal substitution leaves no occurrence of the label. -/
theorem subGap_no_label : ∀ (l : List Char), ¬ gapLabel <:+: subGapAll l := by
  intro l
  induction l using subGapAll.induct with
  | case1 =>
    rw [ subGapAll]
    simp only [List.infix_nil]
    decide
  | case2 c t hpre ih =>
    rw [ subGapAll, if_pos hpre]
    exact ih
  | case3 c t hpre ih =>
    rw [ subGapAll, if_neg hpre]
    intro hc
    rcases List.infix_cons_iff.mp hc with h1 | h1
    · rw [gapLabel_cons] at h1
      rcases List.cons_prefix_cons.mp h1 with ⟨hch, htail⟩
      have h2 : gapLabel.drop 1 <+: subGapAll t := by
        rw [gapLabel_cons]
        simpa using htail
      have h3 : gapLabel.drop 1 <+: t := subGap_track t 1 (by decide) (by decide) h2
      apply hpre
      rw [List.isPrefixOf_iff_prefix, gapLabel_cons]
      refine List.cons_prefix_cons.mpr ⟨hch, ?_⟩
      rw [gapLabel_cons] at h3
      simpa using h3
    · exact ih h1

/-- Claim C10: the renderer's summary cleanup guarantees the rendered
SUMMARY body never contains the literal `"RESEARCH GAP/PROBLEM:"`: after
`cleanSummary` no occurrence of the label remains (and a summary that never
contained it is returned unchanged, hence also label-free). -/
theorem claim10_summary_gap_removed (s : List Char) :
    occursIn gapLabel (cleanSummary s) = false := by
  rw [ cleanSummary]
  split
  · rw [occursIn_false_iff]
    intro hc
    exact subGap_no_label s (hc.trans (pyStrip_ifx (subGapAll s)))
  · rename_i h
    rw [Bool.and_eq_true, not_and_or] at h
    rcases h with h | h
    · have hs : s = [] := by
        rcases s with _ | ⟨c, t⟩
        · rfl
        · simp at h
      subst hs
      decide
    · exact Bool.eq_false_iff.mpr h

/-- Claim C6: with an empty parsed `gap` the rendered markdown has no
`RESEARCH GAP/PROBLEM` heading; each optional section (SUMMARY, KEYWORDS,
RESEARCH GAP/PROBLEM, OBJECTIVES, ABSTRACT) is omitted entirely — heading
included — when its content is empty; and the headings that do appear
always form a subsequence of the fixed order. -/
theorem claim6_section_omission (d : PaperData) (hg : d.gap = []) :
    "RESEARCH GAP/PROBLEM".toList ∉ mdHeadings d
    ∧ (cleanSummary d.summary = [] → "SUMMARY".toList ∉ mdHeadings d)
    ∧ (ensure_keywords_in_singular d.keywords = [] → "KEYWORDS".toList ∉ mdHeadings d)
    ∧ (d.objectives = [] → "OBJECTIVES".toList ∉ mdHeadings d)
    ∧ (d.abstract = [] → "ABSTRACT".toList ∉ mdHeadings d)
    ∧ List.Sublist (mdHeadings d) mdFixedOrder := by
  have hh : mdHeadings d
      = ["TITLE".toList, "AUTHOR".toList]
        ++ (if (cleanSummary d.summary).isEmpty then [] else ["SUMMARY".toList])
        ++ (if (ensure_keywords_in_singular d.keywords).isEmpty then [] else ["KEYWORDS".toList])
        ++ (if d.gap.isEmpty then [] else ["RESEARCH GAP/PROBLEM".toList])
        ++ (if d.objectives.isEmpty then [] else ["OBJECTIVES".toList])
        ++ (if d.abstract.isEmpty then [] else ["ABSTRACT".toList]) := by
    rw [ mdHeadings, mdSections]
    simp only [List.map_append,
      apply_ite (List.map (@Prod.fst (List Char) (List Char))),
      List.map_cons, List.map_nil]
  have hgap : d.gap.isEmpty = true := by rw [hg]; rfl
  simp only [hgap, if_true, List.append_nil] at hh
  refine ⟨?_, ?_, ?_, ?_, ?_, ?_⟩
  · cases h1 : (cleanSummary d.summary).isEmpty <;>
    cases h2 : (ensure_keywords_in_singular d.keywords).isEmpty <;>
    cases h3 : d.objectives.isEmpty <;>
    cases h4 : d.abstract.isEmpty <;>
    simp only [h1, h2, h3, h4, Bool.false_eq_true, eq_self_iff_true, if_true, if_false] at hh <;>
    rw [hh] <;> decide
  · intro hs
    have he : (cleanSummary d.summary).isEmpty = true := by rw [hs]; rfl
    cases h2 : (ensure_keywords_in_singular d.keywords).isEmpty <;>
    cases h3 : d.objectives.isEmpty <;>
    cases h4 : d.abstract.isEmpty <;>
    simp only [he, h2, h3, h4, Bool.false_eq_true, eq_self_iff_true, if_true, if_false] at hh <;>
    rw [hh] <;> decide
  · intro hs
    have he : (ensure_keywords_in_singular d.keywords).isEmpty = true := by rw [hs]; rfl
    cases h1 : (cleanSummary d.summary).isEmpty <;>
    cases h3 : d.objectives.isEmpty <;>
    cases h4 : d.abstract.isEmpty <;>
    simp only [he, h1, h3, h4, Bool.false_eq_true, eq_self_iff_true, if_true, if_false] at hh <;>
    rw [hh] <;> decide
  · intro hs
    have he : d.objectives.isEmpty = true := by rw [hs]; rfl
    cases h1 : (cleanSummary d.summary).isEmpty <;>
    cases h2 : (ensure_keywords_in_singular d.keywords).isEmpty <;>
    cases h4 : d.abstract.isEmpty <;>
    simp only [he, h1, h2, h4, Bool.false_eq_true, eq_self_iff_true, if_true, if_false] at hh <;>
    rw [hh] <;> decide
  · intro hs
    have he : d.abstract.isEmpty = true := by rw [hs]; rfl
    cases h1 : (cleanSummary d.summary).isEmpty <;>
    cases h2 : (ensure_keywords_in_singular d.keywords).isEmpty <;>
    cases h3 : d.objectives.isEmpty <;>
    simp only [he, h1, h2, h3, Bool.false_eq_true, eq_self_iff_true, if_true, if_false] at hh <;>
    rw [hh] <;> decide
  · cases h1 : (cleanSummary d.summary).isEmpty <;>
    cases h2 : (ensure_keywords_in_singular d.keywords).isEmpty <;>
    cases h3 : d.objectives.isEmpty <;>
    cases h4 : d.abstract.isEmpty <;>
    simp only [h1, h2, h3, h4, Bool.false_eq_true, eq_self_iff_true, if_true, if_false] at hh <;>
    rw [hh] <;> decide

/-- Concrete instance of `claim6_section_omission` at a record with every
optional section empty, hypothesis discharged by `rfl`. -/
theorem claim6_section_omission_check :
    "RESEARCH GAP/PROBLEM".toList ∉
        mdHeadings ⟨"T".toList, "A".toList, "2020".toList, [], [], [], [], [], []⟩
    ∧ (cleanSummary ([] : List Char) = [] → "SUMMARY".toList ∉
        mdHeadings ⟨"T".toList, "A".toList, "2020".toList, [], [], [], [], [], []⟩)
    ∧ (ensure_keywords_in_singular [] = [] → "KEYWORDS".toList ∉
        mdHeadings ⟨"T".toList, "A".toList, "2020".toList, [], [], [], [], [], []⟩)
    ∧ (([] : List Char) = [] → "OBJECTIVES".toList ∉
        mdHeadings ⟨"T".toList, "A".toList, "2020".toList, [], [], [], [], [], []⟩)
    ∧ (([] : List Char) = [] → "ABSTRACT".toList ∉
        mdHeadings ⟨"T".toList, "A".toList, "2020".toList, [], [], [], [], [], []⟩)
    ∧ List.Sublist
        (mdHeadings ⟨"T".toList, "A".toList, "2020".toList, [], [], [], [], [], []⟩)
        mdFixedOrder :=
  claim6_section_omission ⟨"T".toList, "A".toList, "2020".toList, [], [], [], [], [], []⟩ rfl

/-! ### Filename normalization (C5) and stage-1 extraction (C7, C8) -/

/-- Claim C5: a base name matched by pattern 1 normalizes to the cleaned
author, an underscore and the four-digit year; the match returns before the
later patterns, so pattern-1 inputs never fall through to pattern 4's
underscore-collapsed fallback (or to patterns 2 and 3). -/
theorem claim5_pattern1_priority (base a y : List Char)
    (h : matchPattern1 base = some (a, y)) :
    normalize_filename base = cleanAuthorP1 a ++ '_' :: y := by
  rw [ normalize_filename, h]

/-- Concrete instance of `claim5_pattern1_priority`: a reference-manager
style name, hypothesis discharged by evaluation. -/
theorem claim5_pattern1_priority_check :
    normalize_filename "Smith et al. - 2023 - Gene Study".toList
      = "Smith_et_al_2023".toList :=
  (claim5_pattern1_priority "Smith et al. - 2023 - Gene Study".toList
    "Smith et al.".toList "2023".toList (by decide)).trans (by decide)

/-- Claim C7: when the PDF library raises (the `Except.error` input), title
and author extraction returns the sentinel pair, and year extraction — once
the filename holds no four-digit number and the document must be consulted —
returns the year sentinel.  Both embedded functions are total functions into
plain values, reflecting that the Python `try`/`except` blocks never let an
extraction exception reach the caller. -/
theorem claim7_failure_sentinels :
    (∀ e, extract_title_authors_from_pdf (Except.error e) = (unknownTitle, unknownAuthor))
    ∧ (∀ e filename, findFourDigits filename = none →
        extract_year filename (Except.error e) = unknownYear) := by
  constructor
  · intro e
    rfl
  · intro e filename h
    rw [ extract_year.eq_def, h]

/-- Concrete instance of `claim7_failure_sentinels`. -/
theorem claim7_failure_sentinels_check :
    extract_title_authors_from_pdf (Except.error (PdfError.failure "bad xref".toList))
        = (unknownTitle, unknownAuthor)
    ∧ extract_year "paper".toList (Except.error (PdfError.failure "bad xref".toList))
        = unknownYear :=
  ⟨claim7_failure_sentinels.1 _, claim7_failure_sentinels.2 _ _ (by decide)⟩

/-- Claim C8: the strict priority order of `extract_year`: a four-digit
number in the filename is returned without consulting the document at all
(the result is the same for every document input, including failures); else
the `D:YYYY` scan of `creationDate`, then of `modDate`; else the bounded
19xx/20xx token scan over the first 1000 characters of page-1 text; else
the sentinel. -/
theorem claim8_year_priority (filename : List Char) (d : YearSource) :
    (∀ y, findFourDigits filename = some y →
      ∀ src : Except PdfError YearSource, extract_year filename src = y)
    ∧ (findFourDigits filename = none → ∀ y, findDYear d.creationDate = some y →
        extract_year filename (Except.ok d) = y)
    ∧ (findFourDigits filename = none → findDYear d.creationDate = none →
        ∀ y, findDYear d.modDate = some y → extract_year filename (Except.ok d) = y)
    ∧ (findFourDigits filename = none → findDYear d.creationDate = none →
        findDYear d.modDate = none → ∀ y,
          findYearToken (d.firstPageText.take 1000) = some y →
          extract_year filename (Except.ok d) = y)
    ∧ (findFourDigits filename = none → findDYear d.creationDate = none →
        findDYear d.modDate = none → findYearToken (d.firstPageText.take 1000) = none →
        extract_year filename (Except.ok d) = unknownYear) := by
  have hok : findFourDigits filename = none →
      extract_year filename (Except.ok d)
        = match findDYear d.creationDate with
          | some y => y
          | none =>
            match findDYear d.modDate with
            | some y => y
            | none =>
              match findYearToken (d.firstPageText.take 1000) with
              | some y => y
              | none => unknownYear := by
    intro h
    rw [ extract_year.eq_def, h]
  refine ⟨?_, ?_, ?_, ?_, ?_⟩
  · intro y h src
    rw [ extract_year.eq_def, h]
  · intro h y h1
    rw [hok h, h1]
  · intro h h1 y h2
    rw [hok h, h1, h2]
  · intro h h1 h2 y h3
    rw [hok h, h1, h2, h3]
  · intro h h1 h2 h3
    rw [hok h, h1, h2, h3]

/-- Concrete instances of every branch of `claim8_year_priority`. -/
theorem claim8_year_priority_check :
    extract_year "file2003name".toList
        (Except.ok ⟨"D:1990".toList, "D:1991".toList, "1992 text".toList⟩) = "2003".toList
    ∧ extract_year "name".toList
        (Except.ok ⟨"D:1990".toList, "D:1991".toList, "1992 text".toList⟩) = "1990".toList
    ∧ extract_year "name".toList
        (Except.ok ⟨"opaque".toList, "D:1991".toList, "1992 text".toList⟩) = "1991".toList
    ∧ extract_year "name".toList
        (Except.ok ⟨"opaque".toList, "junk".toList, "1992 text".toList⟩) = "1992".toList
    ∧ extract_year "name".toList
        (Except.ok ⟨"opaque".toList, "junk".toList, "no year".toList⟩) = unknownYear := by
  refine ⟨?_, ?_, ?_, ?_, ?_⟩
  · exact (claim8_year_priority "file2003name".toList
      ⟨"D:1990".toList, "D:1991".toList, "1992 text".toList⟩).1 _ (by decide) _
  · exact (claim8_year_priority "name".toList
      ⟨"D:1990".toList, "D:1991".toList, "1992 text".toList⟩).2.1 (by decide) _ (by decide)
  · exact (claim8_year_priority "name".toList
      ⟨"opaque".toList, "D:1991".toList, "1992 text".toList⟩).2.2.1
        (by decide) (by decide) _ (by decide)
  · exact (claim8_year_priority "name".toList
      ⟨"opaque".toList, "junk".toList, "1992 text".toList⟩).2.2.2.1
        (by decide) (by decide) (by decide) _ (by decide)
  · exact (claim8_year_priority "name".toList
      ⟨"opaque".toList, "junk".toList, "no year".toList⟩).2.2.2.2
        (by decide) (by decide) (by decide) (by decide)

/-! ### Permissive parsing (C9) -/

theorem afterFirst_none {pat l : List Char} (h : occursIn pat l = false) :
    afterFirst pat l = none := by
  induction l with
  | nil => rfl
  | cons c t ih =>
    rw [ occursIn, Bool.or_eq_false_iff] at h
    rw [ afterFirst, h.1]
    simp only [Bool.false_eq_true, if_false]
    exact ih h.2

theorem afterFirst_sfx {pat l r : List Char} (h : afterFirst pat l = some r) :
    ∃ u, u ++ r = l := by
  induction l with
  | nil => cases h
  | cons c t ih =>
    rw [ afterFirst] at h
    split at h
    · injection h with h1
      refine ⟨(c :: t).take pat.length, ?_⟩
      rw [← h1, List.take_append_drop]
    · obtain ⟨u, hu⟩ := ih h
      exact ⟨c :: u, by rw [List.cons_append, hu]⟩

theorem dollarBody_pfx (l : List Char) : dollarBody l <+: l := by
  rw [ dollarBody]
  split
  · rename_i r hr
    have h2 : l = r.reverse ++ ['\n'] := by
      have h3 := congrArg List.reverse hr
      simpa using h3
    rw [h2]
    simp only [List.reverse_reverse] at *
    exact List.prefix_append _ _
  · exact List.prefix_rfl

theorem searchToEnd_ifx {label content r : List Char}
    (h : searchToEnd label content = some r) : r <:+: content := by
  rw [ searchToEnd] at h
  cases haf : afterFirst label content with
  | none => rw [haf] at h; cases h
  | some rest =>
    rw [haf] at h
    injection h with h1
    obtain ⟨u, hu⟩ := afterFirst_sfx haf
    obtain ⟨u2, hu2⟩ := dropWhile_sfx isPySpace rest
    rw [← h1]
    refine ((pyStrip_ifx _).trans ((dollarBody_pfx _).isInfix.trans ?_)).trans
      (⟨u, [], by rw [List.append_nil, hu]⟩ : rest <:+: content)
    exact ⟨u2, [], by rw [List.append_nil, hu2]⟩

/-- The Claude block that stage 3 parses is always a contiguous part of the
file content (or empty). -/
theorem claudePart_cases (content : List Char) :
    (searchToEnd claudeLabel content).getD [] = []
    ∨ (searchToEnd claudeLabel content).getD [] <:+: content := by
  cases hcl : searchToEnd claudeLabel content with
  | none => exact Or.inl rfl
  | some r => exact Or.inr (by simpa using searchToEnd_ifx hcl)

theorem searchSection_none {lab content : List Char} (h : occursIn lab content = false) :
    searchSection lab content = none := by
  rw [ searchSection, afterFirst_none h]
  rfl

theorem searchLine_none {lab content : List Char} (h : occursIn lab content = false) :
    searchLine lab content = none := by
  rw [ searchLine, afterFirst_none h]
  rfl

theorem searchSection_claude_none {lab content : List Char}
    (h : occursIn lab content = false) :
    searchSection lab ((searchToEnd claudeLabel content).getD []) = none := by
  rcases claudePart_cases content with hc | hc
  · rw [hc]
    apply searchSection_none
    cases lab with
    | nil =>
      exfalso
      rw [occursIn_false_iff] at h
      exact h (by simp)
    | cons c t => rfl
  · exact searchSection_none (occursIn_of_ifx hc h)

/-- Claim C9: the record readers of stages 3 and 2 are total and permissive:
on any input text, a missing `TITLE: ` / `AUTHORS: ` / `YEAR: ` label yields
its documented sentinel, and a missing `ABSTRACT:` / `INTRODUCTION:` label,
or a missing analysis sub-section label, yields the empty value
(keywords: the empty list). -/
theorem claim9_parser_permissive (content : List Char) :
    (occursIn titleLabel content = false →
      (extract_data_from_file content).title = "Unknown Title".toList)
    ∧ (occursIn authorsLabel content = false →
      (extract_data_from_file content).authors = "Unknown Authors".toList)
    ∧ (occursIn yearLabel content = false →
      (extract_data_from_file content).year = "Unknown Year".toList)
    ∧ (occursIn abstractLabel content = false →
      (extract_data_from_file content).abstract = [])
    ∧ (occursIn introLabel content = false →
      (extract_data_from_file content).introduction = [])
    ∧ (occursIn summaryLabel content = false →
      (extract_data_from_file content).summary = [])
    ∧ (occursIn gapLabel content = false →
      (extract_data_from_file content).gap = [])
    ∧ (occursIn objectivesLabel content = false →
      (extract_data_from_file content).objectives = [])
    ∧ (occursIn keywordsLabel content = false →
      (extract_data_from_file content).keywords = [])
    ∧ (occursIn titleLabel content = false →
      (extract_content_from_file content).title = "Unknown Title".toList)
    ∧ (occursIn abstractLabel content = false →
      (extract_content_from_file content).abstract = [])
    ∧ (occursIn introLabel content = false →
      (extract_content_from_file content).introduction = []) := by
  refine ⟨?_, ?_, ?_, ?_, ?_, ?_, ?_, ?_, ?_, ?_, ?_, ?_⟩
  · intro h
    simp [ extract_data_from_file, searchLine_none h]
  · intro h
    simp [ extract_data_from_file, searchLine_none h]
  · intro h
    simp [ extract_data_from_file, searchLine_none h]
  · intro h
    simp [ extract_data_from_file, searchSection_none h]
  · intro h
    simp [ extract_data_from_file, searchSection_none h]
  · intro h
    simp [ extract_data_from_file, searchSection_claude_none h]
  · intro h
    simp [ extract_data_from_file, searchSection_claude_none h]
  · intro h
    simp [ extract_data_from_file, searchSection_claude_none h]
  · intro h
    simp [ extract_data_from_file, searchSection_claude_none h]
  · intro h
    simp [ extract_content_from_file, searchLine_none h]
  · intro h
    simp [ extract_content_from_file, searchSection_none h]
  · intro h
    simp [ extract_content_from_file, searchSection_none h]

/-- Concrete instance of `claim9_parser_permissive` on a label-free text. -/
theorem claim9_parser_permissive_check :
    (extract_data_from_file "just some notes".toList).title = "Unknown Title".toList
    ∧ (extract_data_from_file "just some notes".toList).authors = "Unknown Authors".toList
    ∧ (extract_data_from_file "just some notes".toList).year = "Unknown Year".toList
    ∧ (extract_data_from_file "just some notes".toList).abstract = []
    ∧ (extract_data_from_file "just some notes".toList).introduction = []
    ∧ (extract_data_from_file "just some notes".toList).summary = []
    ∧ (extract_data_from_file "just some notes".toList).gap = []
    ∧ (extract_data_from_file "just some notes".toList).objectives = []
    ∧ (extract_data_from_file "just some notes".toList).keywords = []
    ∧ (extract_content_from_file "just some notes".toList).title = "Unknown Title".toList
    ∧ (extract_content_from_file "just some notes".toList).abstract = []
    ∧ (extract_content_from_file "just some notes".toList).introduction = [] := by
  have h := claim9_parser_permissive "just some notes".toList
  exact ⟨h.1 (by decide), h.2.1 (by decide), h.2.2.1 (by decide), h.2.2.2.1 (by decide),
    h.2.2.2.2.1 (by decide), h.2.2.2.2.2.1 (by decide), h.2.2.2.2.2.2.1 (by decide),
    h.2.2.2.2.2.2.2.1 (by decide), h.2.2.2.2.2.2.2.2.1 (by decide),
    h.2.2.2.2.2.2.2.2.2.1 (by decide), h.2.2.2.2.2.2.2.2.2.2.1 (by decide),
    h.2.2.2.2.2.2.2.2.2.2.2 (by decide)⟩

/-! ### Record round trip (C2) -/

instance (w pat : List Char) : Decidable (StartClear w pat) := by
  unfold StartClear
  infer_instance

/-- First character (if any) is not whitespace. -/
def headOkB (l : List Char) : Bool :=
  match l with
  | [] => true
  | c :: _ => !isPySpace c

/-- No leading and no trailing whitespace (`l.strip() == l`). -/
def strippedB (l : List Char) : Bool := headOkB l && headOkB l.reverse

theorem headOk_cons {c : Char} {t : List Char} (h : headOkB (c :: t) = true) :
    isPySpace c = false := by
  rw [ headOkB] at h
  simpa using h

theorem dropWhile_of_headOk {l : List Char} (h : headOkB l = true) :
    l.dropWhile isPySpace = l := by
  cases l with
  | nil => rfl
  | cons c t =>
    rw [List.dropWhile_cons, headOk_cons h]
    simp

theorem pyStrip_of_stripped {l : List Char} (h : strippedB l = true) : pyStrip l = l := by
  rw [ strippedB, Bool.and_eq_true] at h
  rw [ pyStrip, dropWhile_of_headOk h.1, dropWhile_of_headOk h.2, List.reverse_reverse]

theorem dropWhile_cons_block {a z : List Char} (hs : strippedB a = true) (hn : a ≠ []) :
    ('\n' :: (a ++ z)).dropWhile isPySpace = a ++ z := by
  obtain ⟨c, t, rfl⟩ := List.exists_cons_of_ne_nil hn
  rw [ strippedB, Bool.and_eq_true] at hs
  rw [List.dropWhile_cons]
  have h1 : isPySpace '\n' = true := by decide
  rw [h1]
  simp only [if_true]
  rw [List.cons_append, List.dropWhile_cons, headOk_cons hs.1]
  simp

theorem pyStrip_append_newline {l : List Char} (hs : strippedB l = true) (hn : l ≠ []) :
    pyStrip (l ++ ['\n']) = l := by
  rw [ strippedB, Bool.and_eq_true] at hs
  have h1 : (l ++ ['\n']).dropWhile isPySpace = l ++ ['\n'] := by
    obtain ⟨c, t, rfl⟩ := List.exists_cons_of_ne_nil hn
    rw [List.cons_append, List.dropWhile_cons, headOk_cons hs.1]
    simp
  rw [ pyStrip, h1, List.reverse_append]
  simp only [List.reverse_cons, List.reverse_nil, List.nil_append, List.singleton_append]
  rw [List.dropWhile_cons]
  have h2 : isPySpace '\n' = true := by decide
  rw [h2]
  simp only [if_true]
  rw [dropWhile_of_headOk hs.2, List.reverse_reverse]

theorem colonRun_mono {x : List Char} (h : colonRun x = true) (y : List Char) :
    colonRun (x ++ y) = true := by
  induction x with
  | nil => cases h
  | cons c t ih =>
    rw [ colonRun, Bool.or_eq_true] at h
    rw [List.cons_append, colonRun, Bool.or_eq_true]
    rcases h with h | h
    · exact Or.inl h
    · rw [Bool.and_eq_true] at h
      exact Or.inr (by rw [Bool.and_eq_true]; exact ⟨h.1, ih h.2⟩)

theorem ucColon_mono {x : List Char} (h : ucColon x = true) (y : List Char) :
    ucColon (x ++ y) = true := by
  cases x with
  | nil => cases h
  | cons c t =>
    rw [ ucColon, Bool.and_eq_true] at h
    rw [List.cons_append, ucColon, Bool.and_eq_true]
    exact ⟨h.1, colonRun_mono h.2 y⟩

theorem colonRun_append_newline (x y : List Char) :
    colonRun (x ++ '\n' :: y) = colonRun x := by
  induction x with
  | nil => rfl
  | cons c t ih =>
    rw [List.cons_append, colonRun, ih, colonRun]

theorem ucColon_append_newline (x y : List Char) :
    ucColon (x ++ '\n' :: y) = ucColon x := by
  cases x with
  | nil => rfl
  | cons c t => rw [List.cons_append, ucColon, colonRun_append_newline, ucColon]

theorem hasBoundary_head {c : Char} {t : List Char} (h : hasBoundary (c :: t) = false) :
    boundaryB (c :: t) = false ∧ hasBoundary t = false := by
  rw [ hasBoundary, Bool.or_eq_false_iff] at h
  exact h

theorem takeUntilBoundary_stop {a w : List Char} (ha : hasBoundary a = false)
    (hw : ucColon w = true) : takeUntilBoundary (a ++ '\n' :: '\n' :: w) = a := by
  induction a with
  | nil =>
    rw [List.nil_append, takeUntilBoundary]
    have hb : boundaryB ('\n' :: '\n' :: w) = true := by
      rw [ boundaryB, hw]
      decide
    rw [hb]
    simp
  | cons c a' ih =>
    obtain ⟨hb0, ha'⟩ := hasBoundary_head ha
    have hb : boundaryB ((c :: a') ++ '\n' :: '\n' :: w) = false := by
      cases a' with
      | nil =>
        show boundaryB (c :: '\n' :: '\n' :: w) = false
        rw [ boundaryB]
        have huc : ucColon ('\n' :: w) = false := rfl
        rw [huc]
        simp
      | cons d a'' =>
        show boundaryB (c :: d :: (a'' ++ '\n' :: '\n' :: w)) = false
        rw [ boundaryB, ucColon_append_newline]
        rw [ boundaryB] at hb0
        exact hb0
    rw [List.cons_append, takeUntilBoundary]
    rw [List.cons_append] at hb
    rw [hb]
    simp only [Bool.false_eq_true, if_false, List.cons.injEq, true_and]
    exact ih ha'

theorem takeUntilBoundary_keep {a : List Char} (ha : hasBoundary a = false) :
    takeUntilBoundary (a ++ ['\n']) = a ++ ['\n'] := by
  induction a with
  | nil => decide
  | cons c a' ih =>
    obtain ⟨hb0, ha'⟩ := hasBoundary_head ha
    have hb : boundaryB ((c :: a') ++ ['\n']) = false := by
      cases a' with
      | nil =>
        show boundaryB (c :: '\n' :: ([] : List Char)) = false
        rw [ boundaryB]
        have : ucColon ([] : List Char) = false := rfl
        rw [this]
        simp
      | cons d a'' =>
        show boundaryB (c :: d :: (a'' ++ '\n' :: ([] : List Char))) = false
        rw [ boundaryB, ucColon_append_newline]
        rw [ boundaryB] at hb0
        exact hb0
    rw [List.cons_append, takeUntilBoundary]
    rw [List.cons_append] at hb
    rw [hb]
    simp only [Bool.false_eq_true, if_false, List.cons.injEq, true_and]
    exact ih ha'

theorem takeWhile_no_newline {a b : List Char} (h : a.all (fun c => c != '\n') = true) :
    (a ++ '\n' :: b).takeWhile (fun c => c != '\n') = a := by
  induction a with
  | nil =>
    rw [List.nil_append, List.takeWhile_cons]
    simp
  | cons c t ih =>
    rw [List.all_cons, Bool.and_eq_true] at h
    rw [List.cons_append, List.takeWhile_cons, h.1]
    simp only [if_true, List.cons.injEq, true_and]
    exact ih h.2

/-- The serialized text from the INTRODUCTION label on. -/
def tailI (r : PaperRecord) : List Char :=
  introLabel ++ ('\n' :: (r.introduction ++ ['\n']))

/-- The serialized text from the ABSTRACT label on. -/
def tailA (r : PaperRecord) : List Char :=
  abstractLabel ++ ('\n' :: (r.abstract ++ ('\n' :: ('\n' :: tailI r))))

/-- The serialized text from the YEAR label on. -/
def tailY (r : PaperRecord) : List Char :=
  yearLabel ++ (r.year ++ ('\n' :: ('\n' :: tailA r)))

/-- The serialized text from the AUTHORS label on. -/
def tailAu (r : PaperRecord) : List Char :=
  authorsLabel ++ (r.authors ++ ('\n' :: tailY r))

theorem serialize_shape (r : PaperRecord) :
    serializeRecord r = titleLabel ++ (r.title ++ ('\n' :: tailAu r)) := by
  rw [ serializeRecord, tailAu, tailY, tailA, tailI]
  have h1 : "\n".toList = ['\n'] := rfl
  have h2 : "\nABSTRACT:\n".toList = '\n' :: (abstractLabel ++ ['\n']) := rfl
  have h3 : "\nINTRODUCTION:\n".toList = '\n' :: (introLabel ++ ['\n']) := rfl
  have h4 : "TITLE: ".toList = titleLabel := rfl
  have h5 : "AUTHORS: ".toList = authorsLabel := rfl
  have h6 : "YEAR: ".toList = yearLabel := rfl
  rw [h1, h2, h3, h4, h5, h6]
  simp [List.append_assoc]

/-- Claim C2, counterexample: the round trip fails as universally stated.
For a record with an empty abstract, the serialized text reads
`ABSTRACT:\n\n\nINTRODUCTION:\nY\n`; the abstract capture skips the
whitespace run, and since `INTRODUCTION:` right there is not preceded by a
blank line (and `\n\n[A-Z]+:` never matches later), the "abstract" comes
back as `"INTRODUCTION:\nY"` instead of `""`. -/
theorem claim2_counterexample :
    (extract_data_from_file (serializeRecord
        ⟨"T".toList, "A".toList, "2023".toList, [], "Y".toList⟩)).abstract
      ≠ (⟨"T".toList, "A".toList, "2023".toList, [], "Y".toList⟩ : PaperRecord).abstract := by
  decide

/-- Well-formedness for a faithful round trip: no newlines in the one-line
fields, no label text embedded in an earlier field, abstract and
introduction stripped and free of the section-boundary pattern, and the
abstract non-empty (`claim2_counterexample` shows an empty abstract
mis-parses). -/
def wfRecord (r : PaperRecord) : Prop :=
  r.title.all (fun c => c != '\n') = true
  ∧ r.authors.all (fun c => c != '\n') = true
  ∧ r.year.all (fun c => c != '\n') = true
  ∧ occursIn authorsLabel r.title = false
  ∧ occursIn yearLabel r.title = false
  ∧ occursIn yearLabel r.authors = false
  ∧ occursIn abstractLabel r.title = false
  ∧ occursIn abstractLabel r.authors = false
  ∧ occursIn abstractLabel r.year = false
  ∧ occursIn introLabel r.title = false
  ∧ occursIn introLabel r.authors = false
  ∧ occursIn introLabel r.year = false
  ∧ occursIn introLabel r.abstract = false
  ∧ r.abstract ≠ []
  ∧ strippedB r.abstract = true
  ∧ hasBoundary r.abstract = false
  ∧ strippedB r.introduction = true
  ∧ hasBoundary r.introduction = false

set_option maxHeartbeats 3200000 in
/-- Claim C2, amended: serializing a well-formed `PaperRecord` with stage
1's writer and re-parsing with the stage-3 reader restores title, authors,
year, abstract and introduction field-for-field. -/
theorem claim2_roundtrip_wf (r : PaperRecord) (h : wfRecord r) :
    (extract_data_from_file (serializeRecord r)).title = r.title
    ∧ (extract_data_from_file (serializeRecord r)).authors = r.authors
    ∧ (extract_data_from_file (serializeRecord r)).year = r.year
    ∧ (extract_data_from_file (serializeRecord r)).abstract = r.abstract
    ∧ (extract_data_from_file (serializeRecord r)).introduction = r.introduction := by
  obtain ⟨hT, hA, hY, o1, o2, o3, o4, o5, o6, o7, o8, o9, o10,
    habs_ne, habs_str, habs_nb, hint_str, hint_nb⟩ := h
  have hshape := serialize_shape r
  -- TITLE
  have htl : searchLine titleLabel (serializeRecord r) = some r.title := by
    rw [ searchLine, hshape, afterFirst_self (by decide)]
    rw [Option.map_some']
    exact congrArg some (takeWhile_no_newline hT)
  -- AUTHORS
  have hshA : serializeRecord r
      = (titleLabel ++ (r.title ++ ['\n']))
        ++ (authorsLabel ++ (r.authors ++ ('\n' :: tailY r))) := by
    rw [hshape, tailAu]
    simp [List.append_assoc]
  have hxA : ¬ authorsLabel <:+: (titleLabel ++ (r.title ++ ['\n'])) := by
    intro hc
    have hc2 : authorsLabel <:+: (titleLabel ++ r.title) ++ '\n' :: ([] : List Char) := by
      simpa [List.append_assoc] using hc
    rcases ifx_no_newline (by decide) hc2 with h1 | h1
    · exact (occursIn_false_iff.mp o1) (ifx_start_clear (by decide) h1)
    · rw [List.infix_nil] at h1
      exact absurd h1 (by decide)
  have hauth : searchLine authorsLabel (serializeRecord r) = some r.authors := by
    rw [ searchLine, hshA, afterFirst_append (by decide) (by decide) hxA]
    rw [Option.map_some']
    exact congrArg some (takeWhile_no_newline hA)
  -- YEAR
  have hshY : serializeRecord r
      = (titleLabel ++ (r.title ++ ('\n' :: (authorsLabel ++ (r.authors ++ ['\n'])))))
        ++ (yearLabel ++ (r.year ++ ('\n' :: ('\n' :: tailA r)))) := by
    rw [hshape, tailAu, tailY]
    simp [List.append_assoc]
  have hxY : ¬ yearLabel <:+:
      (titleLabel ++ (r.title ++ ('\n' :: (authorsLabel ++ (r.authors ++ ['\n']))))) := by
    intro hc
    have hc2 : yearLabel <:+:
        (titleLabel ++ r.title)
          ++ '\n' :: ((authorsLabel ++ r.authors) ++ '\n' :: ([] : List Char)) := by
      simpa [List.append_assoc] using hc
    rcases ifx_no_newline (by decide) hc2 with h1 | h1
    · exact (occursIn_false_iff.mp o2) (ifx_start_clear (by decide) h1)
    rcases ifx_no_newline (by decide) h1 with h2 | h2
    · exact (occursIn_false_iff.mp o3) (ifx_start_clear (by decide) h2)
    · rw [List.infix_nil] at h2
      exact absurd h2 (by decide)
  have hyear : searchLine yearLabel (serializeRecord r) = some r.year := by
    rw [ searchLine, hshY, afterFirst_append (by decide) (by decide) hxY]
    rw [Option.map_some']
    exact congrArg some (takeWhile_no_newline hY)
  -- ABSTRACT
  have hshAb : serializeRecord r
      = (titleLabel ++ (r.title ++ ('\n' :: (authorsLabel ++ (r.authors
          ++ ('\n' :: (yearLabel ++ (r.year ++ ['\n', '\n']))))))))
        ++ (abstractLabel ++ ('\n' :: (r.abstract ++ ('\n' :: ('\n' :: tailI r))))) := by
    rw [hshape, tailAu, tailY, tailA]
    simp [List.append_assoc]
  have hxAb : ¬ abstractLabel <:+:
      (titleLabel ++ (r.title ++ ('\n' :: (authorsLabel ++ (r.authors
        ++ ('\n' :: (yearLabel ++ (r.year ++ ['\n', '\n'])))))))) := by
    intro hc
    have hc2 : abstractLabel <:+:
        (titleLabel ++ r.title)
          ++ '\n' :: ((authorsLabel ++ r.authors)
            ++ '\n' :: ((yearLabel ++ r.year) ++ '\n' :: (['\n'] : List Char))) := by
      simpa [List.append_assoc] using hc
    rcases ifx_no_newline (by decide) hc2 with h1 | h1
    · exact (occursIn_false_iff.mp o4) (ifx_start_clear (by decide) h1)
    rcases ifx_no_newline (by decide) h1 with h2 | h2
    · exact (occursIn_false_iff.mp o5) (ifx_start_clear (by decide) h2)
    rcases ifx_no_newline (by decide) h2 with h3 | h3
    · exact (occursIn_false_iff.mp o6) (ifx_start_clear (by decide) h3)
    · exact absurd h3.length_le (by decide)
  have hucI : ucColon (tailI r) = true := by
    rw [ tailI]
    exact ucColon_mono (by decide) _
  have habst : searchSection abstractLabel (serializeRecord r) = some r.abstract := by
    rw [ searchSection, hshAb, afterFirst_append (by decide) (by decide) hxAb]
    rw [Option.map_some']
    refine congrArg some ?_
    rw [dropWhile_cons_block habs_str habs_ne, takeUntilBoundary_stop habs_nb hucI]
    exact pyStrip_of_stripped habs_str
  -- INTRODUCTION
  have hshIn : serializeRecord r
      = (titleLabel ++ (r.title ++ ('\n' :: (authorsLabel ++ (r.authors
          ++ ('\n' :: (yearLabel ++ (r.year
            ++ ('\n' :: ('\n' :: (abstractLabel
              ++ ('\n' :: (r.abstract ++ ['\n', '\n'])))))))))))))
        ++ (introLabel ++ ('\n' :: (r.introduction ++ ['\n']))) := by
    rw [hshape, tailAu, tailY, tailA, tailI]
    simp [List.append_assoc]
  have hxIn : ¬ introLabel <:+:
      (titleLabel ++ (r.title ++ ('\n' :: (authorsLabel ++ (r.authors
        ++ ('\n' :: (yearLabel ++ (r.year
          ++ ('\n' :: ('\n' :: (abstractLabel
            ++ ('\n' :: (r.abstract ++ ['\n', '\n']))))))))))))) := by
    intro hc
    have hc2 : introLabel <:+:
        (titleLabel ++ r.title)
          ++ '\n' :: ((authorsLabel ++ r.authors)
            ++ '\n' :: ((yearLabel ++ r.year)
              ++ '\n' :: (([] : List Char)
                ++ '\n' :: (abstractLabel
                  ++ '\n' :: (r.abstract ++ '\n' :: (['\n'] : List Char)))))) := by
      simpa [List.append_assoc] using hc
    rcases ifx_no_newline (by decide) hc2 with h1 | h1
    · exact (occursIn_false_iff.mp o7) (ifx_start_clear (by decide) h1)
    rcases ifx_no_newline (by decide) h1 with h2 | h2
    · exact (occursIn_false_iff.mp o8) (ifx_start_clear (by decide) h2)
    rcases ifx_no_newline (by decide) h2 with h3 | h3
    · exact (occursIn_false_iff.mp o9) (ifx_start_clear (by decide) h3)
    rcases ifx_no_newline (by decide) h3 with h4 | h4
    · rw [List.infix_nil] at h4
      exact absurd h4 (by decide)
    have h5 := ifx_start_clear (by decide : StartClear abstractLabel introLabel) h4
    rcases List.infix_cons_iff.mp h5 with h6 | h6
    · have hil : introLabel = 'I' :: "NTRODUCTION:".toList := by decide
      rw [hil] at h6
      rcases List.cons_prefix_cons.mp h6 with ⟨hch, -⟩
      exact absurd hch (by decide)
    rcases ifx_no_newline (by decide) h6 with h7 | h7
    · exact (occursIn_false_iff.mp o10) h7
    · exact absurd h7.length_le (by decide)
  have hintro : searchSection introLabel (serializeRecord r) = some r.introduction := by
    rw [ searchSection, hshIn, afterFirst_append (by decide) (by decide) hxIn]
    rw [Option.map_some']
    refine congrArg some ?_
    cases hi : r.introduction with
    | nil => decide
    | cons c t =>
      rw [hi] at hint_str hint_nb
      rw [dropWhile_cons_block hint_str (List.cons_ne_nil c t),
        takeUntilBoundary_keep hint_nb]
      exact pyStrip_append_newline hint_str (List.cons_ne_nil c t)
  refine ⟨?_, ?_, ?_, ?_, ?_⟩ <;>
    simp [ extract_data_from_file, htl, hauth, hyear, habst, hintro]

/-- Concrete instance of `claim2_roundtrip_wf` on the spec's example
record, well-formedness discharged by evaluation. -/
theorem claim2_roundtrip_wf_check :
    (extract_data_from_file (serializeRecord
        ⟨"Foo".toList, "A. Bar".toList, "2023".toList, "X".toList, "Y".toList⟩)).title
      = "Foo".toList
    ∧ (extract_data_from_file (serializeRecord
        ⟨"Foo".toList, "A. Bar".toList, "2023".toList, "X".toList, "Y".toList⟩)).authors
      = "A. Bar".toList
    ∧ (extract_data_from_file (serializeRecord
        ⟨"Foo".toList, "A. Bar".toList, "2023".toList, "X".toList, "Y".toList⟩)).year
      = "2023".toList
    ∧ (extract_data_from_file (serializeRecord
        ⟨"Foo".toList, "A. Bar".toList, "2023".toList, "X".toList, "Y".toList⟩)).abstract
      = "X".toList
    ∧ (extract_data_from_file (serializeRecord
        ⟨"Foo".toList, "A. Bar".toList, "2023".toList, "X".toList, "Y".toList⟩)).introduction
      = "Y".toList :=
  claim2_roundtrip_wf ⟨"Foo".toList, "A. Bar".toList, "2023".toList, "X".toList, "Y".toList⟩
    (by refine ⟨?_, ?_, ?_, ?_, ?_, ?_, ?_, ?_, ?_, ?_, ?_, ?_, ?_, ?_, ?_, ?_, ?_, ?_⟩ <;> decide)

end JournalKit
